import Mathlib

/-!
Verification of the poly-commit data-structure layer: a shallow embedding of
the concrete structs and methods from
src/data_structures.rs, src/kzg10/data_structures.rs and
src/marlin_pc/data_structures.rs, followed by theorems settling the stated
properties.

Modelling conventions:
* group elements of the two pairing groups and scalar-field elements are kept
  as abstract types; the external group/field additions are passed in as
  functions, mirroring the fact that curve arithmetic is an external
  collaborator of this crate;
* dense univariate polynomials (the external UVPolynomial collaborator) are
  modelled as coefficient lists, addition is coefficientwise with padding;
* a Rust method that can panic (unwrap of None, or an unimplemented body) is
  embedded as an Option-returning function where a None result marks the
  panic;
* the additive-secret-sharing primitives of the external crypto_primitives
  crate are not re-implemented: the share vectors they return are taken as
  parameters, constrained by the sum property those primitives guarantee;
* byte-level serializers of the collaborating group/polynomial/integer types
  are abstract encoder/decoder pairs on an abstract symbol alphabet,
  constrained by prefix round-trip laws.
-/

/-- Coefficientwise polynomial addition with padding; models the external
dense-polynomial AddAssign used by the Randomness types. -/
def polyAdd {F : Type} (fadd : F → F → F) : List F → List F → List F
  | p, [] => p
  | [], q => q
  | a :: p, b :: q => fadd a b :: polyAdd fadd p q

/-- Zero test of a dense polynomial: empty coefficient vector or all
coefficients zero; models the external DensePolynomial is_zero. -/
def polyIsZero {F : Type} [Zero F] [DecidableEq F] (p : List F) : Bool :=
  p.isEmpty || p.all fun c => decide (c = 0)

/-- Sum of a list with a given binary addition, folding from the first
element; none on the empty list. Models folding the Rust Add instance of a
type over a vector of values. -/
def listSum {α : Type} (add : α → α → α) : List α → Option α
  | [] => none
  | x :: xs => some (xs.foldl add x)

/-- Fold of a possibly panicking (Option-valued) addition. -/
def optFoldl {α : Type} (add : α → α → Option α) : α → List α → Option α
  | a, [] => some a
  | a, x :: xs =>
    match add a x with
    | none => none
    | some b => optFoldl add b xs

/-- Sum of a list with a possibly panicking addition, folding from the first
element. -/
def listSumM {α : Type} (add : α → α → Option α) : List α → Option α
  | [] => none
  | x :: xs => optFoldl add x xs

/-- A prefix-correct encoder/decoder pair: decoding an encoded value followed
by arbitrary residual symbols returns the value and the residue. -/
abbrev EncDecCompat {α B : Type} (enc : α → List B)
    (dec : List B → Option (α × List B)) : Prop :=
  ∀ x rest, dec (enc x ++ rest) = some (x, rest)

/-- Serializer of Option values: a boolean tag followed by the payload when
present; models the ark-serialize Option layout. -/
def optEnc {α B : Type} (encBool : Bool → List B) (enc : α → List B) :
    Option α → List B
  | none => encBool false
  | some x => encBool true ++ enc x

/-- Deserializer matching optEnc. -/
def optDec {α B : Type} (decBool : List B → Option (Bool × List B))
    (dec : List B → Option (α × List B)) (bs : List B) :
    Option (Option α × List B) :=
  match decBool bs with
  | none => none
  | some (false, rest) => some (none, rest)
  | some (true, rest) =>
    match dec rest with
    | none => none
    | some (x, r) => some (some x, r)

/-- Concatenated encodings of the elements of a list. -/
def listEnc {α B : Type} (enc : α → List B) : List α → List B
  | [] => []
  | x :: xs => enc x ++ listEnc enc xs

/-- Serializer of vectors: a length prefix followed by the element encodings;
models the ark-serialize Vec layout. -/
def vecEnc {α B : Type} (encLen : Nat → List B) (enc : α → List B)
    (l : List α) : List B :=
  encLen l.length ++ listEnc enc l

/-- Decode exactly n consecutive elements. -/
def decN {α B : Type} (dec : List B → Option (α × List B)) :
    Nat → List B → Option (List α × List B)
  | 0, bs => some ([], bs)
  | n + 1, bs =>
    match dec bs with
    | none => none
    | some (x, rest) =>
      match decN dec n rest with
      | none => none
      | some (xs, r) => some (x :: xs, r)

/-- Deserializer matching vecEnc. -/
def vecDec {α B : Type} (decLen : List B → Option (Nat × List B))
    (dec : List B → Option (α × List B)) (bs : List B) :
    Option (List α × List B) :=
  match decLen bs with
  | none => none
  | some (n, rest) => decN dec n rest

/-- The core of a slice binary search: the classic half-interval loop of the
Rust standard library binary_search_by, specialised to the comparator
(d, _) => d.cmp(bound) used by get_shift_power. The loop always terminates in
Rust; fuel makes the embedding structurally recursive, and any fuel above
right - left is sufficient. -/
def bsGo (keys : List Nat) (b : Nat) : Nat → Nat → Nat → Option Nat
  | 0, _, _ => none
  | fuel + 1, left, right =>
    if left < right then
      let mid := left + (right - left) / 2
      let k := keys.getD mid 0
      if k < b then bsGo keys b fuel (mid + 1) right
      else if b < k then bsGo keys b fuel left mid
      else some mid
    else none

/-- slice::binary_search_by over the projected keys, returning the index of a
matching element when one exists (the Ok branch; the Err insertion point is
discarded by get_shift_power). -/
def binarySearchBy (keys : List Nat) (b : Nat) : Option Nat :=
  bsGo keys b (keys.length + 1) 0 keys.length

namespace kzg10

/-- kzg10::UniversalParams (src/kzg10/data_structures.rs). The BTreeMap
fields are modelled as association lists ordered by key. -/
structure UniversalParams (G1 G2 G2P : Type) where
  powers_of_g : List G1
  powers_of_gamma_g : List (Nat × G1)
  h : G2
  beta_h : G2
  prepared_neg_powers_of_h : List (Nat × G2P)
  prepared_h : G2P
  prepared_beta_h : G2P

/-- PCUniversalParams::max_degree for kzg10::UniversalParams:
powers_of_g.len() - 1 (truncated subtraction, as usize arithmetic never
underflows here because setup always produces a non-empty vector). -/
def UniversalParams.max_degree {G1 G2 G2P : Type}
    (pp : UniversalParams G1 G2 G2P) : Nat :=
  pp.powers_of_g.length - 1

/-- kzg10::VerifierKey. -/
structure VerifierKey (G1 G2 G2P : Type) where
  g : G1
  gamma_g : G1
  h : G2
  beta_h : G2
  prepared_h : G2P
  prepared_beta_h : G2P

/-- kzg10::Commitment, a tuple struct holding one group element; c0 models
the .0 field. -/
structure Commitment (G1 : Type) where
  c0 : G1

/-- Add for kzg10::Commitment: group addition of the elements. -/
def Commitment.add {G1 : Type} (gadd : G1 → G1 → G1)
    (x y : Commitment G1) : Commitment G1 :=
  ⟨gadd x.c0 y.c0⟩

/-- Zero::zero for kzg10::Commitment: the group identity. -/
def Commitment.zero {G1 : Type} [Zero G1] : Commitment G1 := ⟨0⟩

/-- Zero::is_zero for kzg10::Commitment: zero test of the group element
(total, unlike the wrapper types). -/
def Commitment.is_zero {G1 : Type} [Zero G1] [DecidableEq G1]
    (c : Commitment G1) : Bool :=
  decide (c.c0 = 0)

/-- PCCommitment::empty for kzg10::Commitment. -/
def Commitment.empty {G1 : Type} [Zero G1] : Commitment G1 := ⟨0⟩

/-- Share::share for kzg10::Commitment: gs stands for the vector returned by
AdditiveShare::new(self.0).share(num, rng); each group share is wrapped back
into a Commitment. -/
def Commitment.share {G1 : Type} (_self : Commitment G1) (gs : List G1) :
    List (Commitment G1) :=
  gs.map Commitment.mk

/-- kzg10::Randomness: the blinding polynomial (coefficient list). -/
structure Randomness (F : Type) where
  blinding_polynomial : List F

/-- Randomness::is_hiding: true exactly when the blinding polynomial is
non-zero. -/
def Randomness.is_hiding {F : Type} [Zero F] [DecidableEq F]
    (r : Randomness F) : Bool :=
  ! polyIsZero r.blinding_polynomial

/-- Randomness::calculate_hiding_polynomial_degree. -/
def Randomness.calculate_hiding_polynomial_degree (hiding_bound : Nat) : Nat :=
  hiding_bound + 1

/-- PCRandomness::empty for kzg10::Randomness: zero blinding polynomial. -/
def Randomness.empty {F : Type} : Randomness F := ⟨[]⟩

/-- Add for kzg10::Randomness: polynomial addition of the blinding
polynomials. -/
def Randomness.add {F : Type} (fadd : F → F → F) (x y : Randomness F) :
    Randomness F :=
  ⟨polyAdd fadd x.blinding_polynomial y.blinding_polynomial⟩

/-- Zero::is_zero for kzg10::Randomness: zero test of the blinding
polynomial (total, unlike the wrapper types). -/
def Randomness.is_zero {F : Type} [Zero F] [DecidableEq F]
    (r : Randomness F) : Bool :=
  polyIsZero r.blinding_polynomial

/-- Share::share for kzg10::Randomness: ps stands for the polynomial shares
returned by self.blinding_polynomial.share(num, rng). -/
def Randomness.share {F : Type} (_self : Randomness F) (ps : List (List F)) :
    List (Randomness F) :=
  ps.map Randomness.mk

/-- CanonicalSerialize for kzg10::Randomness, one mode: delegates to the
polynomial serializer of that mode. -/
def Randomness.serializeWith {F B : Type} (pEnc : List F → List B)
    (r : Randomness F) : List B :=
  pEnc r.blinding_polynomial

/-- CanonicalDeserialize for kzg10::Randomness, one mode. -/
def Randomness.deserializeWith {F B : Type}
    (pDec : List B → Option (List F × List B)) (bs : List B) :
    Option (Randomness F × List B) :=
  match pDec bs with
  | none => none
  | some (p, rest) => some (⟨p⟩, rest)

/-- kzg10::Proof: witness commitment plus optional hiding evaluation. -/
structure Proof (G1 F : Type) where
  w : G1
  random_v : Option F

/-- Add for kzg10::Proof. The w components are always added; the random_v
component unwraps other.random_v whenever self.random_v is Some, so the
result is none (panic) exactly when self is hiding and other is not. -/
def Proof.add? {G1 F : Type} (gadd : G1 → G1 → G1) (fadd : F → F → F)
    (x y : Proof G1 F) : Option (Proof G1 F) :=
  match x.random_v with
  | some v => y.random_v.map fun u => Proof.mk (gadd x.w y.w) (some (fadd v u))
  | none => some ⟨gadd x.w y.w, y.random_v⟩

/-- Zero::zero for kzg10::Proof. -/
def Proof.zero {G1 F : Type} [Zero G1] : Proof G1 F := ⟨0, none⟩

/-- Zero::is_zero for kzg10::Proof is unimplemented!() in the source: every
call panics, embedded as none. -/
def Proof.is_zero? {G1 F : Type} (_self : Proof G1 F) : Option Bool := none

/-- Share::share for kzg10::Proof: ws stands for the group shares of w, vs
for the field shares of the hiding scalar; when the proof is hiding the two
share vectors are zipped, otherwise every share gets random_v = none. -/
def Proof.share {G1 F : Type} (p : Proof G1 F) (ws : List G1) (vs : List F) :
    List (Proof G1 F) :=
  match p.random_v with
  | some _ => (ws.zip vs).map fun q => ⟨q.1, some q.2⟩
  | none => ws.map fun w => ⟨w, none⟩

end kzg10

namespace marlin_pc

/-- marlin_pc::CommitterKey (src/marlin_pc/data_structures.rs). -/
structure CommitterKey (G1 : Type) where
  powers : List G1
  shifted_powers : Option (List G1)
  powers_of_gamma_g : List G1
  enforced_degree_bounds : Option (List Nat)
  max_degree : Nat

/-- PCCommitterKey::supported_degree for marlin_pc::CommitterKey, exactly as
written in the source: self.powers.len(). -/
def CommitterKey.supported_degree {G1 : Type} (ck : CommitterKey G1) : Nat :=
  ck.powers.length

/-- CanonicalSerialize for marlin_pc::CommitterKey, parameterised by the
element encoders used at each field position: encMain encodes the elements of
powers and powers_of_gamma_g, encShift the elements of shifted_powers, natEnc
the usize values (and vector lengths), encBool the Option tags. -/
def CommitterKey.serializeWith {G1 B : Type} (encBool : Bool → List B)
    (natEnc : Nat → List B) (encMain encShift : G1 → List B)
    (ck : CommitterKey G1) : List B :=
  vecEnc natEnc encMain ck.powers ++
  optEnc encBool (vecEnc natEnc encShift) ck.shifted_powers ++
  vecEnc natEnc encMain ck.powers_of_gamma_g ++
  optEnc encBool (vecEnc natEnc natEnc) ck.enforced_degree_bounds ++
  natEnc ck.max_degree

/-- CanonicalDeserialize for marlin_pc::CommitterKey, parameterised by the
element decoders used at each field position. -/
def CommitterKey.deserializeWith {G1 B : Type}
    (decBool : List B → Option (Bool × List B))
    (natDec : List B → Option (Nat × List B))
    (decMain decShift : List B → Option (G1 × List B)) (bs : List B) :
    Option (CommitterKey G1 × List B) := do
  let (powers, r1) ← vecDec natDec decMain bs
  let (shifted_powers, r2) ← optDec decBool (vecDec natDec decShift) r1
  let (powers_of_gamma_g, r3) ← vecDec natDec decMain r2
  let (enforced_degree_bounds, r4) ← optDec decBool (vecDec natDec natDec) r3
  let (max_degree, r5) ← natDec r4
  pure (⟨powers, shifted_powers, powers_of_gamma_g, enforced_degree_bounds,
    max_degree⟩, r5)

/-- serialize (compressed mode): powers and powers_of_gamma_g are written
uncompressed, shifted_powers compressed, per lines 46-54 of the source. -/
def CommitterKey.serialize {G1 B : Type} (encBool : Bool → List B)
    (natEnc : Nat → List B) (encC encU : G1 → List B) :
    CommitterKey G1 → List B :=
  CommitterKey.serializeWith encBool natEnc encU encC

/-- deserialize (compressed mode): powers and powers_of_gamma_g are read with
the unchecked decoder (which reads the uncompressed layout), shifted_powers
with the compressed decoder, per lines 87-94 of the source. -/
def CommitterKey.deserialize {G1 B : Type}
    (decBool : List B → Option (Bool × List B))
    (natDec : List B → Option (Nat × List B))
    (decC decUnch : List B → Option (G1 × List B)) :
    List B → Option (CommitterKey G1 × List B) :=
  CommitterKey.deserializeWith decBool natDec decUnch decC

/-- serialize_uncompressed: every field uncompressed. -/
def CommitterKey.serialize_uncompressed {G1 B : Type}
    (encBool : Bool → List B) (natEnc : Nat → List B) (encU : G1 → List B) :
    CommitterKey G1 → List B :=
  CommitterKey.serializeWith encBool natEnc encU encU

/-- deserialize_uncompressed: every field uncompressed. -/
def CommitterKey.deserialize_uncompressed {G1 B : Type}
    (decBool : List B → Option (Bool × List B))
    (natDec : List B → Option (Nat × List B))
    (decU : List B → Option (G1 × List B)) :
    List B → Option (CommitterKey G1 × List B) :=
  CommitterKey.deserializeWith decBool natDec decU decU

/-- serialize_unchecked is not overridden for CommitterKey, so the
ark-serialize trait default applies: it writes the uncompressed layout. -/
def CommitterKey.serialize_unchecked {G1 B : Type}
    (encBool : Bool → List B) (natEnc : Nat → List B) (encU : G1 → List B) :
    CommitterKey G1 → List B :=
  CommitterKey.serialize_uncompressed encBool natEnc encU

/-- deserialize_unchecked: every group element read with the unchecked
decoder. -/
def CommitterKey.deserialize_unchecked {G1 B : Type}
    (decBool : List B → Option (Bool × List B))
    (natDec : List B → Option (Nat × List B))
    (decUnch : List B → Option (G1 × List B)) :
    List B → Option (CommitterKey G1 × List B) :=
  CommitterKey.deserializeWith decBool natDec decUnch decUnch

/-- marlin_pc::VerifierKey. -/
structure VerifierKey (G1 G2 G2P : Type) where
  vk : kzg10.VerifierKey G1 G2 G2P
  degree_bounds_and_shift_powers : Option (List (Nat × G1))
  max_degree : Nat
  supported_degree : Nat

/-- VerifierKey::get_shift_power: binary search over the sorted
(degree_bound, shift_power) pairs by bound, Some of the stored power on an
exact match. -/
def VerifierKey.get_shift_power {G1 G2 G2P : Type} [Inhabited G1]
    (vk : VerifierKey G1 G2 G2P) (bound : Nat) : Option G1 :=
  vk.degree_bounds_and_shift_powers.bind fun v =>
    (binarySearchBy (v.map Prod.fst) bound).map fun i =>
      (v.getD i (0, default)).2

/-- marlin_pc::Commitment: a commitment plus the optional shifted
commitment. -/
structure Commitment (G1 : Type) where
  comm : kzg10.Commitment G1
  shifted_comm : Option (kzg10.Commitment G1)

/-- PCCommitment::empty for marlin_pc::Commitment: both components are the
empty kzg10 commitment, and in particular shifted_comm is Some. -/
def Commitment.empty {G1 : Type} [Zero G1] : Commitment G1 :=
  ⟨kzg10.Commitment.empty, some kzg10.Commitment.empty⟩

/-- PCCommitment::has_degree_bound: presence of shifted_comm. -/
def Commitment.has_degree_bound {G1 : Type} (c : Commitment G1) : Bool :=
  c.shifted_comm.isSome

/-- Zero::zero for marlin_pc::Commitment: zero main commitment, no shifted
component. -/
def Commitment.zero {G1 : Type} [Zero G1] : Commitment G1 :=
  ⟨kzg10.Commitment.zero, none⟩

/-- Zero::is_zero for marlin_pc::Commitment is unimplemented!() in the
source: every call panics, embedded as none. -/
def Commitment.is_zero? {G1 : Type} (_self : Commitment G1) : Option Bool :=
  none

/-- Add for marlin_pc::Commitment: when self.shifted_comm is Some the other
shifted_comm is unwrapped (panic, hence none, when absent); when it is None
the result takes other.shifted_comm unchanged. -/
def Commitment.add? {G1 : Type} (gadd : G1 → G1 → G1)
    (x y : Commitment G1) : Option (Commitment G1) :=
  match x.shifted_comm with
  | some c => y.shifted_comm.map fun d =>
      Commitment.mk (kzg10.Commitment.add gadd x.comm y.comm)
        (some (kzg10.Commitment.add gadd c d))
  | none => some ⟨kzg10.Commitment.add gadd x.comm y.comm, y.shifted_comm⟩

/-- Share::share for marlin_pc::Commitment: gs stands for the group shares
of comm, ss for those of shifted_comm; zipped when a shifted commitment is
present. -/
def Commitment.share {G1 : Type} (x : Commitment G1) (gs ss : List G1) :
    List (Commitment G1) :=
  let comm_shares := x.comm.share gs
  match x.shifted_comm with
  | some sc => (comm_shares.zip (sc.share ss)).map fun p => ⟨p.1, some p.2⟩
  | none => comm_shares.map fun c => ⟨c, none⟩

/-- marlin_pc::Randomness: randomness for the main and optionally the
shifted commitment. -/
structure Randomness (F : Type) where
  rand : kzg10.Randomness F
  shifted_rand : Option (kzg10.Randomness F)

/-- Add for marlin_pc::Randomness (total): the shifted component of the
other side defaults to empty randomness via unwrap_or when self has one, and
is taken over unchanged when self has none. -/
def Randomness.add {F : Type} (fadd : F → F → F) (x y : Randomness F) :
    Randomness F :=
  { rand := kzg10.Randomness.add fadd x.rand y.rand
    shifted_rand :=
      match x.shifted_rand with
      | some r1 => some (kzg10.Randomness.add fadd r1
          (y.shifted_rand.getD kzg10.Randomness.empty))
      | none => y.shifted_rand }

/-- Zero::is_zero for marlin_pc::Randomness is unimplemented!() in the
source: every call panics, embedded as none. -/
def Randomness.is_zero? {F : Type} (_self : Randomness F) : Option Bool :=
  none

/-- Share::share for marlin_pc::Randomness: ps stands for the polynomial
shares of rand, ss for those of shifted_rand; zipped when a shifted
randomness is present. -/
def Randomness.share {F : Type} (x : Randomness F)
    (ps ss : List (List F)) : List (Randomness F) :=
  let rand_shares := x.rand.share ps
  match x.shifted_rand with
  | some sr => (rand_shares.zip (sr.share ss)).map fun p => ⟨p.1, some p.2⟩
  | none => rand_shares.map fun r => ⟨r, none⟩

/-- CanonicalSerialize for marlin_pc::Randomness, one mode: rand then the
optional shifted_rand, each with the polynomial serializer of that mode (the
source uses matching modes for both fields in all three methods). -/
def Randomness.serializeWith {F B : Type} (encBool : Bool → List B)
    (pEnc : List F → List B) (r : Randomness F) : List B :=
  kzg10.Randomness.serializeWith pEnc r.rand ++
  optEnc encBool (kzg10.Randomness.serializeWith pEnc) r.shifted_rand

/-- CanonicalDeserialize for marlin_pc::Randomness, one mode. -/
def Randomness.deserializeWith {F B : Type}
    (decBool : List B → Option (Bool × List B))
    (pDec : List B → Option (List F × List B)) (bs : List B) :
    Option (Randomness F × List B) := do
  let (rand, r1) ← kzg10.Randomness.deserializeWith pDec bs
  let (shifted_rand, r2) ←
    optDec decBool (kzg10.Randomness.deserializeWith pDec) r1
  pure (⟨rand, shifted_rand⟩, r2)

end marlin_pc

/-- data_structures::LabeledPolynomial (the reference-counted sharing of the
polynomial is a memory-layout concern and is not modelled). -/
structure LabeledPolynomial (F : Type) where
  label : String
  polynomial : List F
  degree_bound : Option Nat
  hiding_bound : Option Nat

/-- Add for LabeledPolynomial: the second operand is mutated in place
(other.polynomial += self.polynomial) and returned, so the result keeps the
label, degree bound and hiding bound of the second operand. -/
def LabeledPolynomial.add {F : Type} (fadd : F → F → F)
    (x y : LabeledPolynomial F) : LabeledPolynomial F :=
  { y with polynomial := polyAdd fadd y.polynomial x.polynomial }

/-- Zero::is_zero for LabeledPolynomial is unimplemented!() in the source:
every call panics, embedded as none. -/
def LabeledPolynomial.is_zero? {F : Type} (_self : LabeledPolynomial F) :
    Option Bool :=
  none

/-- data_structures::LabeledCommitment over an abstract commitment type. -/
structure LabeledCommitment (C : Type) where
  label : String
  commitment : C
  degree_bound : Option Nat

/-- Add for LabeledCommitment: other.commitment = self.commitment +
other.commitment, and other is returned, so the result keeps the label and
degree bound of the second operand. -/
def LabeledCommitment.add {C : Type} (cadd : C → C → C)
    (x y : LabeledCommitment C) : LabeledCommitment C :=
  { y with commitment := cadd x.commitment y.commitment }

/-- Zero::is_zero for LabeledCommitment is unimplemented!() in the source:
every call panics, embedded as none. -/
def LabeledCommitment.is_zero? {C : Type} (_self : LabeledCommitment C) :
    Option Bool :=
  none

/-- The degree bound the spec ascribes to a linear-combination output:
the maximum over the bounds that are present. Stated from the words of the
spec, for comparison with the Add implementations above. -/
def maxDegreeBound : Option Nat → Option Nat → Option Nat
  | none, none => none
  | some a, none => some a
  | none, some b => some b
  | some a, some b => some (max a b)

/-- A concrete degree-bound committer key whose powers vector holds exactly
two group elements (d = 1) and whose max_degree field is 1, as trim would
produce for supported degree 1. -/
def ckBug : marlin_pc.CommitterKey Int :=
  ⟨[5, 7], none, [], none, 1⟩

/-- Concrete verifier key with bound list [(1, 10), (3, 30)], sorted
ascending, for exercising get_shift_power. -/
def vkEx : marlin_pc.VerifierKey Int Int Int :=
  ⟨⟨0, 0, 0, 0, 0, 0⟩, some [(1, 10), (3, 30)], 10, 5⟩

/-- Concrete universal parameters with three powers of g (D = 2). -/
def upEx : kzg10.UniversalParams Int Int Int :=
  ⟨[2, 4, 8], [], 0, 0, [], 0, 0⟩

/-- Toy alphabet codecs for concrete witnesses: each encoded value occupies
one symbol of the alphabet of integer lists. -/
def tEncInt (x : Int) : List (List Int) := [[x]]

/-- Toy decoder for group elements. -/
def tDecInt : List (List Int) → Option (Int × List (List Int))
  | [x] :: r => some (x, r)
  | _ => none

/-- Toy encoder for usize values and vector lengths. -/
def tEncNat (n : Nat) : List (List Int) := [[(n : Int)]]

/-- Toy decoder for usize values and vector lengths. -/
def tDecNat : List (List Int) → Option (Nat × List (List Int))
  | [x] :: r => some (x.toNat, r)
  | _ => none

/-- Toy encoder for Option tags. -/
def tEncBool : Bool → List (List Int)
  | false => [[0]]
  | true => [[1]]

/-- Toy decoder for Option tags. -/
def tDecBool : List (List Int) → Option (Bool × List (List Int))
  | [0] :: r => some (false, r)
  | [1] :: r => some (true, r)
  | _ => none

/-- Toy encoder for polynomials: one symbol per polynomial. -/
def tEncPoly (p : List Int) : List (List Int) := [p]

/-- Toy decoder for polynomials. -/
def tDecPoly : List (List Int) → Option (List Int × List (List Int))
  | p :: r => some (p, r)
  | [] => none

/-- Concrete committer key exercising every field shape. -/
def ckEx : marlin_pc.CommitterKey Int :=
  ⟨[1, 2], some [3], [4], some [0], 7⟩

/-- Concrete degree-bound randomness with a shifted component. -/
def mrEx : marlin_pc.Randomness Int :=
  ⟨⟨[1, 2]⟩, some ⟨[3]⟩⟩

/-! Helper lemmas about folds, used to reconstruct shared values. -/

theorem foldl_map_hom {A C : Type} (f : A → C) (addA : A → A → A)
    (addC : C → C → C) (hom : ∀ a b, addC (f a) (f b) = f (addA a b)) :
    ∀ (xs : List A) (x0 : A),
      (xs.map f).foldl addC (f x0) = f (xs.foldl addA x0) := by
  intro xs
  induction xs with
  | nil => intro x0; rfl
  | cons x xs ih =>
    intro x0
    simp only [List.map_cons, List.foldl_cons, hom]
    exact ih (addA x0 x)

theorem optFoldl_map_hom {A C : Type} (f : A → C) (addA : A → A → A)
    (addC : C → C → Option C)
    (hom : ∀ a b, addC (f a) (f b) = some (f (addA a b))) :
    ∀ (xs : List A) (x0 : A),
      optFoldl addC (f x0) (xs.map f) = some (f (xs.foldl addA x0)) := by
  intro xs
  induction xs with
  | nil => intro x0; rfl
  | cons x xs ih =>
    intro x0
    simp only [List.map_cons, optFoldl, hom]
    exact ih (addA x0 x)

theorem foldl_zip_pair {A C : Type} (addA : A → A → A) (addC : C → C → C) :
    ∀ (xs : List A) (ys : List C) (a0 : A) (c0 : C),
      xs.length = ys.length →
      (xs.zip ys).foldl (fun p q => (addA p.1 q.1, addC p.2 q.2)) (a0, c0) =
        (xs.foldl addA a0, ys.foldl addC c0) := by
  intro xs
  induction xs with
  | nil =>
    intro ys a0 c0 h
    cases ys with
    | nil => rfl
    | cons y ys => simp at h
  | cons x xs ih =>
    intro ys a0 c0 h
    cases ys with
    | nil => simp at h
    | cons y ys =>
      simp only [List.zip_cons_cons, List.foldl_cons]
      exact ih ys (addA a0 x) (addC c0 y) (by simpa using h)

/-! Helper lemmas about the serialization combinators. -/

theorem optEncDec_compat {α B : Type} {encBool : Bool → List B}
    {decBool : List B → Option (Bool × List B)} {enc : α → List B}
    {dec : List B → Option (α × List B)}
    (hb : EncDecCompat encBool decBool) (h : EncDecCompat enc dec) :
    EncDecCompat (optEnc encBool enc) (optDec decBool dec) := by
  intro x rest
  cases x with
  | none => simp [optEnc, optDec, hb false rest]
  | some a =>
    simp [optEnc, optDec, List.append_assoc, hb true (enc a ++ rest), h a rest]

theorem decN_listEnc {α B : Type} {enc : α → List B}
    {dec : List B → Option (α × List B)} (h : EncDecCompat enc dec) :
    ∀ (l : List α) (rest : List B),
      decN dec l.length (listEnc enc l ++ rest) = some (l, rest) := by
  intro l
  induction l with
  | nil => intro rest; rfl
  | cons x xs ih =>
    intro rest
    simp [listEnc, decN, List.append_assoc, h x (listEnc enc xs ++ rest),
      ih rest]

theorem vecEncDec_compat {α B : Type} {encLen : Nat → List B}
    {decLen : List B → Option (Nat × List B)} {enc : α → List B}
    {dec : List B → Option (α × List B)}
    (hn : EncDecCompat encLen decLen) (h : EncDecCompat enc dec) :
    EncDecCompat (vecEnc encLen enc) (vecDec decLen dec) := by
  intro l rest
  simp [vecEnc, vecDec, List.append_assoc,
    hn l.length (listEnc enc l ++ rest), decN_listEnc h l rest]

theorem ckSerializeWith_compat {G1 B : Type} {encBool : Bool → List B}
    {decBool : List B → Option (Bool × List B)} {natEnc : Nat → List B}
    {natDec : List B → Option (Nat × List B)} {encMain encShift : G1 → List B}
    {decMain decShift : List B → Option (G1 × List B)}
    (hb : EncDecCompat encBool decBool) (hn : EncDecCompat natEnc natDec)
    (hm : EncDecCompat encMain decMain) (hs : EncDecCompat encShift decShift) :
    EncDecCompat
      (marlin_pc.CommitterKey.serializeWith encBool natEnc encMain encShift)
      (marlin_pc.CommitterKey.deserializeWith decBool natDec decMain
        decShift) := by
  intro ck rest
  simp [marlin_pc.CommitterKey.serializeWith,
    marlin_pc.CommitterKey.deserializeWith, List.append_assoc, bind,
    vecEncDec_compat hn hm, optEncDec_compat hb (vecEncDec_compat hn hs),
    optEncDec_compat hb (vecEncDec_compat hn hn), hn]

theorem kzgRandSerializeWith_compat {F B : Type} {pEnc : List F → List B}
    {pDec : List B → Option (List F × List B)} (hp : EncDecCompat pEnc pDec) :
    EncDecCompat (kzg10.Randomness.serializeWith pEnc)
      (kzg10.Randomness.deserializeWith pDec) := by
  intro r rest
  simp [kzg10.Randomness.serializeWith, kzg10.Randomness.deserializeWith,
    hp r.blinding_polynomial rest]

theorem mrSerializeWith_compat {F B : Type} {encBool : Bool → List B}
    {decBool : List B → Option (Bool × List B)} {pEnc : List F → List B}
    {pDec : List B → Option (List F × List B)}
    (hb : EncDecCompat encBool decBool) (hp : EncDecCompat pEnc pDec) :
    EncDecCompat (marlin_pc.Randomness.serializeWith encBool pEnc)
      (marlin_pc.Randomness.deserializeWith decBool pDec) := by
  intro r rest
  simp [marlin_pc.Randomness.serializeWith,
    marlin_pc.Randomness.deserializeWith, List.append_assoc, bind,
    kzgRandSerializeWith_compat hp,
    optEncDec_compat hb (kzgRandSerializeWith_compat hp)]
theorem bsGo_succ (keys : List Nat) (b fuel left right : Nat)
    (h : left < right) :
    bsGo keys b (fuel + 1) left right =
      if keys.getD (left + (right - left) / 2) 0 < b then
        bsGo keys b fuel (left + (right - left) / 2 + 1) right
      else if b < keys.getD (left + (right - left) / 2) 0 then
        bsGo keys b fuel left (left + (right - left) / 2)
      else some (left + (right - left) / 2) := by
  conv_lhs => rw [bsGo]
  rw [if_pos h]

theorem bsGo_stop (keys : List Nat) (b fuel left right : Nat)
    (h : ¬ left < right) :
    bsGo keys b (fuel + 1) left right = none := by
  conv_lhs => rw [bsGo]
  rw [if_neg h]

theorem bsGo_spec (keys : List Nat) (b : Nat)
    (hsort : ∀ i j, i < j → j < keys.length → keys.getD i 0 ≤ keys.getD j 0) :
    ∀ (fuel left right : Nat), right - left < fuel → right ≤ keys.length →
      (∀ j, j < keys.length → keys.getD j 0 = b → left ≤ j ∧ j < right) →
      (∃ i, bsGo keys b fuel left right = some i ∧ i < keys.length ∧
        keys.getD i 0 = b) ∨
        (bsGo keys b fuel left right = none ∧
          ∀ j, j < keys.length → keys.getD j 0 ≠ b) := by
  intro fuel
  induction fuel with
  | zero => intro left right hn; omega
  | succ fuel ih =>
    intro left right hn hr hinv
    by_cases hlr : left < right
    case neg =>
      right
      refine ⟨bsGo_stop keys b fuel left right hlr, ?_⟩
      intro j hj hb2
      rcases hinv j hj hb2 with ⟨h1, h2⟩
      omega
    case pos =>
      have hmlt : left + (right - left) / 2 < right := by omega
      rw [bsGo_succ keys b fuel left right hlr]
      by_cases h1 : keys.getD (left + (right - left) / 2) 0 < b
      · rw [if_pos h1]
        apply ih
        · omega
        · exact hr
        · intro j hj hb2
          rcases hinv j hj hb2 with ⟨hj1, hj2⟩
          refine ⟨?_, hj2⟩
          by_contra hcon
          push_neg at hcon
          have hle : keys.getD j 0 ≤ keys.getD (left + (right - left) / 2) 0 := by
            rcases Nat.lt_or_ge j (left + (right - left) / 2) with hlt | hge
            · exact hsort j _ hlt (by omega)
            · have hje : j = left + (right - left) / 2 := by omega
              rw [hje]
          omega
      · rw [if_neg h1]
        by_cases h2 : b < keys.getD (left + (right - left) / 2) 0
        · rw [if_pos h2]
          apply ih
          · omega
          · omega
          · intro j hj hb2
            rcases hinv j hj hb2 with ⟨hj1, hj2⟩
            refine ⟨hj1, ?_⟩
            by_contra hcon
            push_neg at hcon
            have hge : keys.getD (left + (right - left) / 2) 0 ≤ keys.getD j 0 := by
              rcases Nat.lt_or_ge (left + (right - left) / 2) j with hlt | hge2
              · exact hsort _ j hlt hj
              · have hje : j = left + (right - left) / 2 := by omega
                rw [hje]
            omega
        · rw [if_neg h2]
          left
          exact ⟨left + (right - left) / 2, rfl, by omega, by omega⟩

theorem binarySearchBy_spec (keys : List Nat) (b : Nat)
    (hsort : ∀ i j, i < j → j < keys.length → keys.getD i 0 ≤ keys.getD j 0) :
    (∃ i, binarySearchBy keys b = some i ∧ i < keys.length ∧
      keys.getD i 0 = b) ∨
      (binarySearchBy keys b = none ∧
        ∀ j, j < keys.length → keys.getD j 0 ≠ b) :=
  bsGo_spec keys b hsort (keys.length + 1) 0 keys.length (by omega)
    (Nat.le_refl _) (fun j hj _ => ⟨Nat.zero_le j, hj⟩)

/-- Claim C4: for a degree-bound VerifierKey whose bound list is sorted in
(strictly) ascending order of bound, get_shift_power b returns some s exactly
when the pair (b, s) occurs in the list — never the power of a neighbouring
bound, and none when the exact bound is absent; with no bound list it always
returns none. -/
theorem get_shift_power_spec {G1 G2 G2P : Type} [Inhabited G1]
    (vk : marlin_pc.VerifierKey G1 G2 G2P) (v : List (Nat × G1)) (b : Nat)
    (hvk : vk.degree_bounds_and_shift_powers = some v)
    (hsorted : (v.map Prod.fst).Pairwise (· < ·)) :
    (∀ s : G1, vk.get_shift_power b = some s ↔ (b, s) ∈ v) ∧
    (∀ vk2 : marlin_pc.VerifierKey G1 G2 G2P,
      vk2.degree_bounds_and_shift_powers = none →
      vk2.get_shift_power b = none) := by
  constructor
  · intro s
    have hstrict : ∀ i j, i < (v.map Prod.fst).length →
        j < (v.map Prod.fst).length → i < j →
        (v.map Prod.fst).getD i 0 < (v.map Prod.fst).getD j 0 := by
      intro i j hi hj hij
      rw [List.getD_eq_getElem _ _ hi, List.getD_eq_getElem _ _ hj]
      exact List.pairwise_iff_getElem.mp hsorted i j hi hj hij
    have hsort : ∀ i j, i < j → j < (v.map Prod.fst).length →
        (v.map Prod.fst).getD i 0 ≤ (v.map Prod.fst).getD j 0 := by
      intro i j hij hj
      exact Nat.le_of_lt (hstrict i j (by omega) hj hij)
    have huniq : ∀ i j, i < (v.map Prod.fst).length →
        j < (v.map Prod.fst).length →
        (v.map Prod.fst).getD i 0 = (v.map Prod.fst).getD j 0 → i = j := by
      intro i j hi hj he
      rcases Nat.lt_trichotomy i j with h | h | h
      · have := hstrict i j hi hj h; omega
      · exact h
      · have := hstrict j i hj hi h; omega
    have hkey : ∀ j (hj : j < v.length),
        (v.map Prod.fst).getD j 0 = (v.get ⟨j, hj⟩).1 := by
      intro j hj
      rw [List.getD_eq_getElem _ _ (by simpa using hj)]
      simp [List.getElem_map]
    have hspec := binarySearchBy_spec (v.map Prod.fst) b hsort
    simp only [marlin_pc.VerifierKey.get_shift_power, hvk, Option.some_bind]
    rcases hspec with ⟨i, hfind, hi, hkb⟩ | ⟨hnone, hall⟩
    · rw [hfind]
      have hiv : i < v.length := by simpa using hi
      have hgv : v.getD i (0, default) = v.get ⟨i, hiv⟩ := by
        rw [List.getD_eq_getElem _ _ hiv]
        simp
      have hfst : (v.get ⟨i, hiv⟩).1 = b := by rw [← hkey i hiv]; exact hkb
      simp only [Option.map_some', hgv]
      constructor
      · intro hsome
        have hs : (v.get ⟨i, hiv⟩).2 = s := by
          injection hsome
        have : v.get ⟨i, hiv⟩ = (b, s) := by
          rw [Prod.ext_iff]
          exact ⟨hfst, hs⟩
        rw [← this]
        exact List.get_mem v i hiv
      · intro hmem
        obtain ⟨j, hjv, hj⟩ := List.mem_iff_getElem.mp hmem
        have hjget : v.get ⟨j, hjv⟩ = (b, s) := hj
        have hkj : (v.map Prod.fst).getD j 0 = b := by
          rw [hkey j hjv, hjget]
        have hij : i = j := huniq i j hi (by simpa using hjv) (by rw [hkb, hkj])
        subst hij
        have : v.get ⟨i, hiv⟩ = (b, s) := hjget
        rw [this]
    · rw [hnone]
      simp only [Option.map_none']
      constructor
      · intro h; exact absurd h (by simp)
      · intro hmem
        obtain ⟨j, hjv, hj⟩ := List.mem_iff_getElem.mp hmem
        have hjget : v.get ⟨j, hjv⟩ = (b, s) := hj
        have hkj : (v.map Prod.fst).getD j 0 = b := by
          rw [hkey j hjv, hjget]
        exact absurd hkj (hall j (by simpa using hjv))
  · intro vk2 h2
    simp [marlin_pc.VerifierKey.get_shift_power, h2]

/-- Witness for the get_shift_power specification at a concrete verifier
key: bound 3 is present and its own shift power is returned. -/
theorem get_shift_power_witness : vkEx.get_shift_power 3 = some 30 :=
  ((get_shift_power_spec vkEx [(1, 10), (3, 30)] 3 rfl (by decide)).1 30).mpr
    (by decide)

/-- Claim C1, evaluated at the failing input: a committer key whose powers
vector holds exactly two elements (so d = 1) trimmed from parameters of
maximum degree 1 reports supported_degree() = 2, the vector length, instead
of d = 1, and the invariant supported_degree() ≤ max_degree() fails. -/
theorem supported_degree_off_by_one :
    marlin_pc.CommitterKey.supported_degree ckBug = 2 ∧
    ckBug.max_degree = 1 ∧
    ckBug.max_degree < marlin_pc.CommitterKey.supported_degree ckBug := by
  refine ⟨rfl, rfl, by decide⟩

/-- Claim C3 counterexample: adding a labeled commitment carrying degree
bound 5 to one carrying no bound yields a result with no bound, not the
maximum some 5; the same happens for labeled polynomials. -/
theorem labeled_add_degree_bound_counterexample :
    (LabeledCommitment.add (fun a b => a + b)
        ⟨"a", (1 : Int), some 5⟩ ⟨"b", (2 : Int), none⟩).degree_bound ≠
      maxDegreeBound (some 5) none ∧
    (LabeledPolynomial.add (fun a b => a + b)
        ⟨"p", [(1 : Int)], some 5, none⟩
        ⟨"q", [(2 : Int)], none, none⟩).degree_bound ≠
      maxDegreeBound (some 5) none := by
  refine ⟨by decide, by decide⟩

/-- Claim C3 (amended): Add on labeled commitments and labeled polynomials
mutates and returns the second operand, so the degree bound of the sum is
exactly the degree bound of the second operand, regardless of the bound of
the first. -/
theorem labeled_add_degree_bound_amended {C F : Type}
    (cadd : C → C → C) (fadd : F → F → F)
    (x y : LabeledCommitment C) (p q : LabeledPolynomial F) :
    (LabeledCommitment.add cadd x y).degree_bound = y.degree_bound ∧
    (LabeledPolynomial.add fadd p q).degree_bound = q.degree_bound :=
  ⟨rfl, rfl⟩

/-- Claim C5 counterexample: marlin_pc Commitment::empty() sets shifted_comm
to Some(empty), so has_degree_bound() evaluates to true, not false. -/
theorem commitment_empty_degree_bound_counterexample :
    ¬ (marlin_pc.Commitment.empty : marlin_pc.Commitment Int).has_degree_bound = false := by
  decide

/-- Claim C5 (amended): has_degree_bound() equals shifted_comm.is_some() on
every value and zero() carries no degree bound, but empty() has
shifted_comm = Some(empty) and therefore has_degree_bound() = true. -/
theorem has_degree_bound_amended {G1 : Type} [Zero G1]
    (c : marlin_pc.Commitment G1) :
    c.has_degree_bound = c.shifted_comm.isSome ∧
    (marlin_pc.Commitment.zero : marlin_pc.Commitment G1).has_degree_bound = false ∧
    (marlin_pc.Commitment.empty : marlin_pc.Commitment G1).has_degree_bound = true :=
  ⟨rfl, rfl, rfl⟩

/-- Claim C6: Proof addition is partial and asymmetric in its hiding
scalar: hiding + non-hiding panics (none), non-hiding + hiding returns the
hiding scalar unchanged, hiding + hiding adds the scalars, and
non-hiding + non-hiding stays non-hiding. -/
theorem proof_add_random_v_spec {G1 F : Type} (gadd : G1 → G1 → G1)
    (fadd : F → F → F) :
    (∀ (p q : kzg10.Proof G1 F) (v : F), p.random_v = some v →
      q.random_v = none → kzg10.Proof.add? gadd fadd p q = none) ∧
    (∀ (p q : kzg10.Proof G1 F) (v : F), p.random_v = some v →
      q.random_v = none →
      kzg10.Proof.add? gadd fadd q p = some ⟨gadd q.w p.w, some v⟩) ∧
    (∀ (p q : kzg10.Proof G1 F) (v u : F), p.random_v = some v →
      q.random_v = some u →
      kzg10.Proof.add? gadd fadd p q =
        some ⟨gadd p.w q.w, some (fadd v u)⟩) ∧
    (∀ (p q : kzg10.Proof G1 F), p.random_v = none → q.random_v = none →
      kzg10.Proof.add? gadd fadd p q = some ⟨gadd p.w q.w, none⟩) := by
  refine ⟨?_, ?_, ?_, ?_⟩
  · rintro ⟨pw, prv⟩ ⟨qw, qrv⟩ v hp hq
    have hp2 : prv = some v := hp
    have hq2 : qrv = none := hq
    subst hp2; subst hq2
    rfl
  · rintro ⟨pw, prv⟩ ⟨qw, qrv⟩ v hp hq
    have hp2 : prv = some v := hp
    have hq2 : qrv = none := hq
    subst hp2; subst hq2
    rfl
  · rintro ⟨pw, prv⟩ ⟨qw, qrv⟩ v u hp hq
    have hp2 : prv = some v := hp
    have hq2 : qrv = some u := hq
    subst hp2; subst hq2
    rfl
  · rintro ⟨pw, prv⟩ ⟨qw, qrv⟩ hp hq
    have hp2 : prv = none := hp
    have hq2 : qrv = none := hq
    subst hp2; subst hq2
    rfl

/-- Witness for the Proof addition specification at concrete proofs: the
hiding + non-hiding order panics while the reverse order keeps the scalar. -/
theorem proof_add_random_v_witness :
    kzg10.Proof.add? (fun a b => a + b) (fun a b => a + b)
        (⟨2, some 5⟩ : kzg10.Proof Int Int) ⟨3, none⟩ = none ∧
    kzg10.Proof.add? (fun a b => a + b) (fun a b => a + b)
        (⟨3, none⟩ : kzg10.Proof Int Int) ⟨2, some 5⟩ = some ⟨5, some 5⟩ :=
  ⟨(proof_add_random_v_spec _ _).1 ⟨2, some 5⟩ ⟨3, none⟩ 5 rfl rfl,
   by simpa using
     (proof_add_random_v_spec _ _).2.1 ⟨2, some 5⟩ ⟨3, none⟩ 5 rfl rfl⟩

/-- Claim C7: when powers_of_g holds exactly D + 1 group elements,
max_degree() returns D. -/
theorem universal_params_max_degree {G1 G2 G2P : Type}
    (pp : kzg10.UniversalParams G1 G2 G2P) (D : Nat)
    (h : pp.powers_of_g.length = D + 1) :
    pp.max_degree = D := by
  simp [kzg10.UniversalParams.max_degree, h]

/-- Witness for the max_degree specification at concrete parameters with
three powers. -/
theorem universal_params_max_degree_witness :
    upEx.powers_of_g.length = 2 + 1 ∧ upEx.max_degree = 2 :=
  ⟨rfl, universal_params_max_degree upEx 2 rfl⟩

/-- Claim C8: is_hiding() returns true exactly when the blinding polynomial
is non-zero, and empty randomness (zero blinding polynomial) is not
hiding. -/
theorem randomness_is_hiding_spec {F : Type} [Zero F] [DecidableEq F]
    (r : kzg10.Randomness F) :
    (r.is_hiding = true ↔ ¬ polyIsZero r.blinding_polynomial = true) ∧
    (kzg10.Randomness.empty : kzg10.Randomness F).is_hiding = false := by
  constructor
  · simp [kzg10.Randomness.is_hiding]
  · rfl

/-- Claim C10: is_zero() panics (embedded as none) on every value of the
five wrapper types, while the kzg10 Commitment and Randomness zero tests are
total and test the underlying group element, respectively the blinding
polynomial. -/
theorem is_zero_panics_spec {G1 F C : Type} [Zero G1] [DecidableEq G1]
    [Zero F] [DecidableEq F]
    (lp : LabeledPolynomial F) (lc : LabeledCommitment C)
    (pr : kzg10.Proof G1 F) (mc : marlin_pc.Commitment G1)
    (mr : marlin_pc.Randomness F) (c : kzg10.Commitment G1)
    (r : kzg10.Randomness F) :
    lp.is_zero? = none ∧ lc.is_zero? = none ∧ pr.is_zero? = none ∧
    mc.is_zero? = none ∧ mr.is_zero? = none ∧
    (c.is_zero = true ↔ c.c0 = 0) ∧
    (r.is_zero = true ↔ ∀ a ∈ r.blinding_polynomial, a = 0) := by
  refine ⟨rfl, rfl, rfl, rfl, rfl, ?_, ?_⟩
  · simp [kzg10.Commitment.is_zero]
  · simp only [kzg10.Randomness.is_zero, polyIsZero, Bool.or_eq_true,
      List.isEmpty_iff, List.all_eq_true, decide_eq_true_eq]
    constructor
    · rintro (h | h)
      · intro a ha; rw [h] at ha; cases ha
      · exact h
    · intro h; right; exact h

theorem listSum_map_hom {A C : Type} (f : A → C) (addA : A → A → A)
    (addC : C → C → C) (hom : ∀ a b, addC (f a) (f b) = f (addA a b))
    (xs : List A) (x0 : A) :
    listSum addC ((x0 :: xs).map f) = some (f (xs.foldl addA x0)) := by
  simp only [List.map_cons, listSum]
  rw [foldl_map_hom f addA addC hom xs x0]

theorem listSumM_map_hom {A C : Type} (f : A → C) (addA : A → A → A)
    (addC : C → C → Option C)
    (hom : ∀ a b, addC (f a) (f b) = some (f (addA a b)))
    (xs : List A) (x0 : A) :
    listSumM addC ((x0 :: xs).map f) = some (f (xs.foldl addA x0)) := by
  simp only [List.map_cons, listSumM]
  rw [optFoldl_map_hom f addA addC hom xs x0]

theorem listSum_zip_hom {A E C : Type} (addA : A → A → A) (addE : E → E → E)
    (addC : C → C → C) (f : A → E → C)
    (hom : ∀ a b c d, addC (f a c) (f b d) = f (addA a b) (addE c d))
    (xs : List A) (ys : List E) (x0 : A) (y0 : E)
    (h : xs.length = ys.length) :
    listSum addC (((x0 :: xs).zip (y0 :: ys)).map fun p => f p.1 p.2) =
      some (f (xs.foldl addA x0) (ys.foldl addE y0)) := by
  simp only [List.zip_cons_cons, List.map_cons, listSum]
  rw [foldl_map_hom (fun p : A × E => f p.1 p.2)
    (fun p q => (addA p.1 q.1, addE p.2 q.2)) addC
    (fun a b => hom a.1 b.1 a.2 b.2) (xs.zip ys) (x0, y0)]
  rw [foldl_zip_pair addA addE xs ys x0 y0 h]

theorem listSumM_zip_hom {A E C : Type} (addA : A → A → A) (addE : E → E → E)
    (addC : C → C → Option C) (f : A → E → C)
    (hom : ∀ a b c d, addC (f a c) (f b d) = some (f (addA a b) (addE c d)))
    (xs : List A) (ys : List E) (x0 : A) (y0 : E)
    (h : xs.length = ys.length) :
    listSumM addC (((x0 :: xs).zip (y0 :: ys)).map fun p => f p.1 p.2) =
      some (f (xs.foldl addA x0) (ys.foldl addE y0)) := by
  simp only [List.zip_cons_cons, List.map_cons, listSumM]
  rw [optFoldl_map_hom (fun p : A × E => f p.1 p.2)
    (fun p q => (addA p.1 q.1, addE p.2 q.2)) addC
    (fun a b => hom a.1 b.1 a.2 b.2) (xs.zip ys) (x0, y0)]
  rw [foldl_zip_pair addA addE xs ys x0 y0 h]

/-- Claim C2: for num ≥ 2 shares, summing the shares produced by the Share
implementations of the kzg10 Commitment, the degree-bound Commitment, the
kzg10 Randomness, the degree-bound Randomness and the Proof with the
respective type addition reconstructs exactly the shared value, under the
hypothesis that the underlying additive share primitives return num shares
summing to the shared group/field/polynomial value; in the hiding case every
Proof share carries some share of random_v. -/
theorem share_reconstruct (G1 F : Type) (gadd : G1 → G1 → G1)
    (fadd : F → F → F) (num : Nat) (hnum : 2 ≤ num) :
    (∀ (x : kzg10.Commitment G1) (gs : List G1),
      gs.length = num → listSum gadd gs = some x.c0 →
      listSum (kzg10.Commitment.add gadd) (x.share gs) = some x) ∧
    (∀ (x : marlin_pc.Commitment G1) (sc : kzg10.Commitment G1)
      (gs ss : List G1), x.shifted_comm = some sc →
      gs.length = num → ss.length = num →
      listSum gadd gs = some x.comm.c0 → listSum gadd ss = some sc.c0 →
      listSumM (marlin_pc.Commitment.add? gadd) (x.share gs ss) = some x) ∧
    (∀ (x : marlin_pc.Commitment G1) (gs ss : List G1),
      x.shifted_comm = none → gs.length = num →
      listSum gadd gs = some x.comm.c0 →
      listSumM (marlin_pc.Commitment.add? gadd) (x.share gs ss) = some x) ∧
    (∀ (x : kzg10.Randomness F) (ps : List (List F)),
      ps.length = num →
      listSum (polyAdd fadd) ps = some x.blinding_polynomial →
      listSum (kzg10.Randomness.add fadd) (x.share ps) = some x) ∧
    (∀ (x : marlin_pc.Randomness F) (sr : kzg10.Randomness F)
      (ps ss : List (List F)), x.shifted_rand = some sr →
      ps.length = num → ss.length = num →
      listSum (polyAdd fadd) ps = some x.rand.blinding_polynomial →
      listSum (polyAdd fadd) ss = some sr.blinding_polynomial →
      listSum (marlin_pc.Randomness.add fadd) (x.share ps ss) = some x) ∧
    (∀ (x : marlin_pc.Randomness F) (ps ss : List (List F)),
      x.shifted_rand = none → ps.length = num →
      listSum (polyAdd fadd) ps = some x.rand.blinding_polynomial →
      listSum (marlin_pc.Randomness.add fadd) (x.share ps ss) = some x) ∧
    (∀ (p : kzg10.Proof G1 F) (v : F) (ws : List G1) (vs : List F),
      p.random_v = some v → ws.length = num → vs.length = num →
      listSum gadd ws = some p.w → listSum fadd vs = some v →
      listSumM (kzg10.Proof.add? gadd fadd) (p.share ws vs) = some p ∧
      (p.share ws vs).map kzg10.Proof.random_v = vs.map some) ∧
    (∀ (p : kzg10.Proof G1 F) (ws : List G1) (vs : List F),
      p.random_v = none → ws.length = num → listSum gadd ws = some p.w →
      listSumM (kzg10.Proof.add? gadd fadd) (p.share ws vs) = some p) := by
  refine ⟨?_, ?_, ?_, ?_, ?_, ?_, ?_, ?_⟩
  · intro x gs hlen hsum
    cases gs with
    | nil => simp at hlen; omega
    | cons g0 gs1 =>
      simp only [listSum] at hsum
      have hf := Option.some.inj hsum
      have h2 := listSum_map_hom kzg10.Commitment.mk gadd
        (kzg10.Commitment.add gadd) (fun a b => rfl) gs1 g0
      rw [hf] at h2
      exact h2
  · rintro ⟨xc, xsh⟩ sc gs ss hsh hlen1 hlen2 hsum1 hsum2
    have hsh2 : xsh = some sc := hsh
    subst hsh2
    cases gs with
    | nil => simp at hlen1; omega
    | cons g0 gs1 =>
      cases ss with
      | nil => simp at hlen2; omega
      | cons s0 ss1 =>
        simp only [listSum] at hsum1 hsum2
        have hf1 := Option.some.inj hsum1
        have hf2 := Option.some.inj hsum2
        have hshare : marlin_pc.Commitment.share ⟨xc, some sc⟩
            (g0 :: gs1) (s0 :: ss1) =
            ((g0 :: gs1).zip (s0 :: ss1)).map fun p =>
              marlin_pc.Commitment.mk ⟨p.1⟩ (some ⟨p.2⟩) := by
          show (((g0 :: gs1).map kzg10.Commitment.mk).zip
              ((s0 :: ss1).map kzg10.Commitment.mk)).map
              (fun p => (⟨p.1, some p.2⟩ : marlin_pc.Commitment G1)) = _
          rw [List.zip_map, List.map_map]
          rfl
        rw [hshare]
        have hlen : gs1.length = ss1.length := by
          simp at hlen1 hlen2; omega
        have h2 := listSumM_zip_hom gadd gadd (marlin_pc.Commitment.add? gadd)
          (fun a c => marlin_pc.Commitment.mk ⟨a⟩ (some ⟨c⟩))
          (fun a b c d => rfl) gs1 ss1 g0 s0 hlen
        rw [hf1, hf2] at h2
        exact h2
  · rintro ⟨xc, xsh⟩ gs ss hsh hlen hsum
    have hsh2 : xsh = none := hsh
    subst hsh2
    cases gs with
    | nil => simp at hlen; omega
    | cons g0 gs1 =>
      simp only [listSum] at hsum
      have hf := Option.some.inj hsum
      have hshare : marlin_pc.Commitment.share ⟨xc, none⟩ (g0 :: gs1) ss =
          (g0 :: gs1).map fun a => marlin_pc.Commitment.mk ⟨a⟩ none := by
        show ((g0 :: gs1).map kzg10.Commitment.mk).map
            (fun c => (⟨c, none⟩ : marlin_pc.Commitment G1)) = _
        rw [List.map_map]
        rfl
      rw [hshare]
      have h2 := listSumM_map_hom (fun a => marlin_pc.Commitment.mk ⟨a⟩ none)
        gadd (marlin_pc.Commitment.add? gadd) (fun a b => rfl) gs1 g0
      rw [hf] at h2
      exact h2
  · intro x ps hlen hsum
    cases ps with
    | nil => simp at hlen; omega
    | cons p0 ps1 =>
      simp only [listSum] at hsum
      have hf := Option.some.inj hsum
      have h2 := listSum_map_hom kzg10.Randomness.mk (polyAdd fadd)
        (kzg10.Randomness.add fadd) (fun a b => rfl) ps1 p0
      rw [hf] at h2
      exact h2
  · rintro ⟨xr, xsh⟩ sr ps ss hsh hlen1 hlen2 hsum1 hsum2
    have hsh2 : xsh = some sr := hsh
    subst hsh2
    cases ps with
    | nil => simp at hlen1; omega
    | cons p0 ps1 =>
      cases ss with
      | nil => simp at hlen2; omega
      | cons s0 ss1 =>
        simp only [listSum] at hsum1 hsum2
        have hf1 := Option.some.inj hsum1
        have hf2 := Option.some.inj hsum2
        have hshare : marlin_pc.Randomness.share ⟨xr, some sr⟩
            (p0 :: ps1) (s0 :: ss1) =
            ((p0 :: ps1).zip (s0 :: ss1)).map fun p =>
              marlin_pc.Randomness.mk ⟨p.1⟩ (some ⟨p.2⟩) := by
          show (((p0 :: ps1).map kzg10.Randomness.mk).zip
              ((s0 :: ss1).map kzg10.Randomness.mk)).map
              (fun p => (⟨p.1, some p.2⟩ : marlin_pc.Randomness F)) = _
          rw [List.zip_map, List.map_map]
          rfl
        rw [hshare]
        have hlen : ps1.length = ss1.length := by
          simp at hlen1 hlen2; omega
        have h2 := listSum_zip_hom (polyAdd fadd) (polyAdd fadd)
          (marlin_pc.Randomness.add fadd)
          (fun a c => marlin_pc.Randomness.mk ⟨a⟩ (some ⟨c⟩))
          (fun a b c d => rfl) ps1 ss1 p0 s0 hlen
        rw [hf1, hf2] at h2
        exact h2
  · rintro ⟨xr, xsh⟩ ps ss hsh hlen hsum
    have hsh2 : xsh = none := hsh
    subst hsh2
    cases ps with
    | nil => simp at hlen; omega
    | cons p0 ps1 =>
      simp only [listSum] at hsum
      have hf := Option.some.inj hsum
      have hshare : marlin_pc.Randomness.share ⟨xr, none⟩ (p0 :: ps1) ss =
          (p0 :: ps1).map fun a => marlin_pc.Randomness.mk ⟨a⟩ none := by
        show ((p0 :: ps1).map kzg10.Randomness.mk).map
            (fun r => (⟨r, none⟩ : marlin_pc.Randomness F)) = _
        rw [List.map_map]
        rfl
      rw [hshare]
      have h2 := listSum_map_hom (fun a => marlin_pc.Randomness.mk ⟨a⟩ none)
        (polyAdd fadd) (marlin_pc.Randomness.add fadd) (fun a b => rfl) ps1 p0
      rw [hf] at h2
      exact h2
  · rintro ⟨pw, prv⟩ v ws vs hrv hlen1 hlen2 hsumw hsumv
    have hrv2 : prv = some v := hrv
    subst hrv2
    cases ws with
    | nil => simp at hlen1; omega
    | cons w0 ws1 =>
      cases vs with
      | nil => simp at hlen2; omega
      | cons v0 vs1 =>
        simp only [listSum] at hsumw hsumv
        have hfw := Option.some.inj hsumw
        have hfv := Option.some.inj hsumv
        constructor
        · have hlen : ws1.length = vs1.length := by
            simp at hlen1 hlen2; omega
          have h2 := listSumM_zip_hom gadd fadd (kzg10.Proof.add? gadd fadd)
            (fun a c => kzg10.Proof.mk a (some c)) (fun a b c d => rfl)
            ws1 vs1 w0 v0 hlen
          rw [hfw, hfv] at h2
          exact h2
        · show (((w0 :: ws1).zip (v0 :: vs1)).map fun q =>
              (⟨q.1, some q.2⟩ : kzg10.Proof G1 F)).map
              kzg10.Proof.random_v = (v0 :: vs1).map some
          rw [List.map_map]
          have hlen : (v0 :: vs1).length ≤ (w0 :: ws1).length := by
            simp at hlen1 hlen2 ⊢; omega
          calc ((w0 :: ws1).zip (v0 :: vs1)).map
                (kzg10.Proof.random_v ∘ fun q => ⟨q.1, some q.2⟩)
              = (((w0 :: ws1).zip (v0 :: vs1)).map Prod.snd).map some := by
                rw [List.map_map]
                rfl
            _ = (v0 :: vs1).map some := by
                rw [List.map_snd_zip _ _ hlen]
  · rintro ⟨pw, prv⟩ ws vs hrv hlen hsumw
    have hrv2 : prv = none := hrv
    subst hrv2
    cases ws with
    | nil => simp at hlen; omega
    | cons w0 ws1 =>
      simp only [listSum] at hsumw
      have hfw := Option.some.inj hsumw
      have h2 := listSumM_map_hom
        (fun w => (⟨w, none⟩ : kzg10.Proof G1 F)) gadd
        (kzg10.Proof.add? gadd fadd) (fun a b => rfl) ws1 w0
      rw [hfw] at h2
      exact h2

/-- Witness for the share reconstruction theorem: two concrete integer
shares of a kzg10 commitment sum back to the commitment. -/
theorem share_reconstruct_witness :
    listSum (kzg10.Commitment.add (fun a b => a + b))
      (kzg10.Commitment.share ⟨(2 : Int)⟩ [3, -1]) = some ⟨2⟩ :=
  (share_reconstruct Int Int (fun a b => a + b) (fun a b => a + b) 2
    (by decide)).1 ⟨2⟩ [3, -1] rfl (by decide)

theorem tInt_compat : EncDecCompat tEncInt tDecInt := fun _ _ => rfl

theorem tNat_compat : EncDecCompat tEncNat tDecNat := fun _ _ => rfl

theorem tBool_compat : EncDecCompat tEncBool tDecBool := by
  intro b rest; cases b <;> rfl

theorem tPoly_compat : EncDecCompat tEncPoly tDecPoly := fun _ _ => rfl

/-- Claim C9: the degree-bound CommitterKey and Randomness serializers
round-trip in all three mode pairings (deserialize after serialize,
deserialize_uncompressed after serialize_uncompressed, deserialize_unchecked
after serialize_unchecked), under the hypothesis that the element-level
codecs of the collaborating group/polynomial/usize/bool types round-trip in
the corresponding modes; the unchecked group decoder reads the uncompressed
layout, matching ark-serialize. -/
theorem serialization_round_trip (G1 F B : Type)
    (encBool : Bool → List B) (decBool : List B → Option (Bool × List B))
    (natEnc : Nat → List B) (natDec : List B → Option (Nat × List B))
    (encC : G1 → List B) (decC : List B → Option (G1 × List B))
    (encU : G1 → List B) (decU decUnch : List B → Option (G1 × List B))
    (pEncC : List F → List B) (pDecC : List B → Option (List F × List B))
    (pEncU : List F → List B) (pDecU : List B → Option (List F × List B))
    (pEncUnch : List F → List B)
    (pDecUnch : List B → Option (List F × List B))
    (hb : EncDecCompat encBool decBool) (hn : EncDecCompat natEnc natDec)
    (hc : EncDecCompat encC decC) (hu : EncDecCompat encU decU)
    (hx : EncDecCompat encU decUnch)
    (hpc : EncDecCompat pEncC pDecC) (hpu : EncDecCompat pEncU pDecU)
    (hpx : EncDecCompat pEncUnch pDecUnch) :
    (∀ (ck : marlin_pc.CommitterKey G1) (rest : List B),
      marlin_pc.CommitterKey.deserialize decBool natDec decC decUnch
        (marlin_pc.CommitterKey.serialize encBool natEnc encC encU ck ++
          rest) = some (ck, rest)) ∧
    (∀ (ck : marlin_pc.CommitterKey G1) (rest : List B),
      marlin_pc.CommitterKey.deserialize_uncompressed decBool natDec decU
        (marlin_pc.CommitterKey.serialize_uncompressed encBool natEnc encU
          ck ++ rest) = some (ck, rest)) ∧
    (∀ (ck : marlin_pc.CommitterKey G1) (rest : List B),
      marlin_pc.CommitterKey.deserialize_unchecked decBool natDec decUnch
        (marlin_pc.CommitterKey.serialize_unchecked encBool natEnc encU
          ck ++ rest) = some (ck, rest)) ∧
    (∀ (r : marlin_pc.Randomness F) (rest : List B),
      marlin_pc.Randomness.deserializeWith decBool pDecC
        (marlin_pc.Randomness.serializeWith encBool pEncC r ++ rest) =
        some (r, rest)) ∧
    (∀ (r : marlin_pc.Randomness F) (rest : List B),
      marlin_pc.Randomness.deserializeWith decBool pDecU
        (marlin_pc.Randomness.serializeWith encBool pEncU r ++ rest) =
        some (r, rest)) ∧
    (∀ (r : marlin_pc.Randomness F) (rest : List B),
      marlin_pc.Randomness.deserializeWith decBool pDecUnch
        (marlin_pc.Randomness.serializeWith encBool pEncUnch r ++ rest) =
        some (r, rest)) :=
  ⟨fun ck rest => ckSerializeWith_compat hb hn hx hc ck rest,
   fun ck rest => ckSerializeWith_compat hb hn hu hu ck rest,
   fun ck rest => ckSerializeWith_compat hb hn hx hx ck rest,
   fun r rest => mrSerializeWith_compat hb hpc r rest,
   fun r rest => mrSerializeWith_compat hb hpu r rest,
   fun r rest => mrSerializeWith_compat hb hpx r rest⟩

/-- Witness for the serialization round trip: concrete toy codecs over the
alphabet of integer lists, evaluated at a concrete committer key and a
concrete degree-bound randomness. -/
theorem serialization_round_trip_witness :
    marlin_pc.CommitterKey.deserialize tDecBool tDecNat tDecInt tDecInt
      (marlin_pc.CommitterKey.serialize tEncBool tEncNat tEncInt tEncInt
        ckEx ++ []) = some (ckEx, []) ∧
    marlin_pc.Randomness.deserializeWith tDecBool tDecPoly
      (marlin_pc.Randomness.serializeWith tEncBool tEncPoly mrEx ++ []) =
      some (mrEx, []) := by
  have h := serialization_round_trip Int Int (List Int) tEncBool tDecBool
    tEncNat tDecNat tEncInt tDecInt tEncInt tDecInt tDecInt tEncPoly
    tDecPoly tEncPoly tDecPoly tEncPoly tDecPoly
    tBool_compat tNat_compat tInt_compat tInt_compat tInt_compat
    tPoly_compat tPoly_compat tPoly_compat
  exact ⟨h.1 ckEx [], h.2.2.2.1 mrEx []⟩
